import Mathlib

/-!
# Feedback Classification & Aggregation Engine — shallow embedding

A shallow embedding of the core of `src/index.ts` (class `FeedbackAnalysisAgent`):
the ingestion pipeline (`ingestFeedback`), the recency query (`getRecentFeedback`),
the dashboard aggregation (`getDashboardData`), the trend query (`getTrends`) and
the summary context assembly (`generateSummary`).

Modelling conventions, stated once:

* The SQLite table `feedback` is a `List Row` in insertion (rowid) order; an
  `INSERT` appends one row.
* ISO-8601 timestamp strings are modelled as a `Timestamp` structure carrying the
  calendar-day number (`day`, the date portion that SQLite's `DATE()` extracts)
  and the time of day (`tod`).  For uniformly formatted ISO strings the source's
  lexicographic text comparisons agree with the lexicographic order on
  `(day, tod)`; a full timestamp compares greater than a bare `YYYY-MM-DD` cutoff
  date exactly when its `day` is `≥` that date, which is how the SQL filter
  `timestamp > DATE('now', '-N days')` is rendered below.
* JavaScript numbers are modelled as exact rationals (`ℚ`); `Math.round` is
  "round half toward positive infinity", i.e. `⌊q + 1/2⌋`.
* The external classification capability together with the brace-extraction
  regex and `JSON.parse` (index.ts lines 114–133) is an external black box; it is
  modelled as an oracle delivering, per item, one of the four outcomes the code
  distinguishes: the call threw, no brace-delimited substring was found, parsing
  threw, or a parsed JSON value.
* `crypto.randomUUID()` is determinised into a per-run counter; only freshness,
  never the concrete identifier text, matters to any statement below.
* Binding a JavaScript `undefined` (a missing required field of a raw input) as
  a SQL parameter throws in the Workers runtime; `ingestLoop` therefore stops
  with an error at the first item missing `source`, `content` or `timestamp`.
-/

/-- A point in time: the calendar-day number (the `DATE()` portion of the ISO
string) and the time of day within it.  Comparisons are lexicographic, matching
text comparison of uniformly formatted ISO strings. -/
structure Timestamp where
  day : Int
  tod : Int
deriving DecidableEq, Repr

/-- `a ≤ b` on timestamps (lexicographic on day, then time of day). -/
def Timestamp.le (a b : Timestamp) : Bool :=
  decide (a.day < b.day) || (decide (a.day = b.day) && decide (a.tod ≤ b.tod))

/-- JSON values, as produced by `JSON.parse` on the classifier's output. -/
inductive Json where
  | null
  | bool (b : Bool)
  | num (q : ℚ)
  | str (s : String)
  | arr (elems : List Json)
  | obj (fields : List (String × Json))

/-- JavaScript truthiness of a parsed JSON value (`null`, `false`, `0` and the
empty string are falsy; arrays and objects are truthy). -/
def Json.truthy : Json → Bool
  | .null => false
  | .bool b => b
  | .num q => decide (q ≠ 0)
  | .str s => decide (s ≠ "")
  | .arr _ => true
  | .obj _ => true

/-- Whether a JSON value is exactly the string `s` (used for the SQL comparisons
`sentiment = 'positive'` etc., and for the JS `===` comparisons). -/
def Json.isStr (s : String) : Json → Bool
  | .str t => decide (t = s)
  | _ => false

/-- Property lookup on a parsed object, duplicate keys resolved last-wins as by
`JSON.parse`; property access on a non-object yields `undefined` (`none`). -/
def lookupField (key : String) : List (String × Json) → Option Json
  | [] => none
  | kv :: rest =>
    match lookupField key rest with
    | some v => some v
    | none => if kv.1 = key then some kv.2 else none

/-- `j.key` — JavaScript property access on a parsed JSON value. -/
def Json.get (j : Json) (key : String) : Option Json :=
  match j with
  | .obj fields => lookupField key fields
  | _ => none

/-- JavaScript string coercion of a JSON value, used where the source employs a
value as an object key or inside a template literal.  Exact for strings (the
classifier contract); primitive numbers and booleans are rendered by `toString`;
composite values are represented opaquely. -/
def Json.asKey : Json → String
  | .str s => s
  | .num q => toString q
  | .bool b => toString b
  | .null => "null"
  | .arr _ => "[array]"
  | .obj _ => "[object Object]"

/-- The structured judgment extracted from one classification response
(index.ts lines 109–137): a sentiment value, a score and a theme list. -/
structure Classification where
  sentiment : Json
  score : ℚ
  themes : List String

/-- Outcome of one classification attempt, as the code distinguishes them:
the capability call threw (line 138), the regex found no brace-delimited
substring (line 132), `JSON.parse` threw (line 138), or a parsed value. -/
inductive ClassifierResponse where
  | callFailed
  | noJsonFound
  | parseFailed
  | parsed (j : Json)

/-- Lines 109–137 of index.ts: defaults `neutral`/`5`/`[]`, overwritten from the
parsed object when one is obtained.  `parsed.sentiment || "neutral"` keeps any
truthy parsed value (of any shape) as the sentiment; `typeof parsed.score ===
"number"` keeps only numbers; `Array.isArray(parsed.themes)` keeps only arrays
(their elements coerced to object keys downstream). -/
def classify : ClassifierResponse → Classification
  | .parsed j =>
    { sentiment :=
        match j.get "sentiment" with
        | some v => if v.truthy then v else .str "neutral"
        | none => .str "neutral"
      score :=
        match j.get "score" with
        | some (.num q) => q
        | _ => 5
      themes :=
        match j.get "themes" with
        | some (.arr xs) => xs.map Json.asKey
        | _ => [] }
  | _ => { sentiment := .str "neutral", score := 5, themes := [] }

/-- One element of the `/ingest` request body: `Omit<FeedbackItem, "id">`.
Required fields (`source`, `content`, `timestamp`) are `Option`s because the
caller's JSON may omit them; a missing one surfaces as `undefined` at the SQL
parameter binding. -/
structure RawInput where
  source : Option String
  content : Option String
  timestamp : Option Timestamp
  metadata : Option (List (String × String))

/-- A raw input that carries every required field. -/
def RawInput.bindable (i : RawInput) : Bool :=
  i.source.isSome && i.content.isSome && i.timestamp.isSome

/-- A persisted `feedback` table row (and equally the classified `FeedbackItem`
pushed onto `processed`; the two coincide up to the JSON serialisation of
`themes` and `metadata`). -/
structure Row where
  id : Nat
  source : String
  content : String
  timestamp : Timestamp
  sentiment : Json
  score : ℚ
  themes : List String
  metadata : List (String × String)

/-- The row a successful iteration of the ingestion loop builds for input
`item` under identifier `k` and classifier outcome `resp`. -/
def rowOf (resp : ClassifierResponse) (k : Nat) (item : RawInput) : Row :=
  { id := k
    source := item.source.getD ""
    content := item.content.getD ""
    timestamp := item.timestamp.getD ⟨0, 0⟩
    sentiment := (classify resp).sentiment
    score := (classify resp).score
    themes := (classify resp).themes
    metadata := item.metadata.getD [] }

/-- The rows a fully successful run over `items` produces, identifiers counting
up from `k`. -/
def rowsFrom (oracle : Nat → ClassifierResponse) : Nat → List RawInput → List Row
  | _, [] => []
  | k, item :: rest => rowOf (oracle k) k item :: rowsFrom oracle (k + 1) rest

/-- The `for`-loop of `ingestFeedback` (index.ts lines 106–158).  Per item:
classify (every failure mode absorbed into the defaults), then `INSERT` — which
appends one row, or throws when a required field is `undefined`, ending the
loop.  Returns the final table contents together with either the `processed`
list or the thrown error. -/
def ingestLoop (oracle : Nat → ClassifierResponse) :
    Nat → List RawInput → List Row → List Row × Except String (List Row)
  | _, [], store => (store, Except.ok [])
  | k, item :: rest, store =>
    match item.source, item.content, item.timestamp with
    | some _, some _, some _ =>
      let row := rowOf (oracle k) k item
      let next := ingestLoop oracle (k + 1) rest (store ++ [row])
      (next.1, next.2.map (fun out => row :: out))
    | _, _, _ => (store, Except.error "Type undefined not supported for value binding")

/-- `ingestFeedback` (index.ts lines 103–161): run the ingestion loop over the
batch against the current table, fresh identifiers counting from the table
size. -/
def ingestFeedback (oracle : Nat → ClassifierResponse) (items : List RawInput)
    (store : List Row) : List Row × Except String (List Row) :=
  ingestLoop oracle store.length items store

/-- JavaScript `Math.round`: round half toward positive infinity. -/
def jsRound (q : ℚ) : Int := ⌊q + 1 / 2⌋

/-- `Math.round(q * 10) / 10` — rounding to one decimal place for display. -/
def jsRound10 (q : ℚ) : ℚ := (jsRound (q * 10) : ℚ) / 10

/-- SQL `AVG` over a non-empty group: the arithmetic mean. -/
def ratMean (l : List ℚ) : ℚ := l.sum / (l.length : ℚ)

/-- Stable insertion of `x` into `l`: `x` goes in front of the first element
`y` it may precede (`bf x y`).  With `bf` true on ties, `foldr`-insertion sorts
stably, which is the guarantee ECMAScript gives for `Array.prototype.sort` and
the order SQLite's `ORDER BY` is modelled to produce here. -/
def insBefore (bf : α → α → Bool) (x : α) : List α → List α
  | [] => [x]
  | y :: ys => if bf x y then x :: y :: ys else y :: insBefore bf x ys

/-- Stable sort by the may-precede relation `bf`. -/
def sortBefore (bf : α → α → Bool) (l : List α) : List α :=
  l.foldr (insBefore bf) []

/-- Distinct elements of `l` that are not in `seen`, in order of first
occurrence. -/
def firstSeenFrom [DecidableEq α] (seen : List α) : List α → List α
  | [] => []
  | x :: xs => if x ∈ seen then firstSeenFrom seen xs else x :: firstSeenFrom (x :: seen) xs

/-- Distinct elements of `l` in order of first occurrence — the insertion
order of the keys of a JavaScript object built by repeated assignment.
(`Object.entries` enumerates these keys with array-index-like keys hoisted to
the front; see `jsEntriesBy`.) -/
def firstSeen [DecidableEq α] (l : List α) : List α := firstSeenFrom [] l

/-- Row `a` may precede row `b` in `ORDER BY timestamp DESC` output: its
timestamp is `≥` (ties keep table order). -/
def newerFirst (a b : Row) : Bool := Timestamp.le b.timestamp a.timestamp

/-- `getRecentFeedback` (index.ts lines 163–176): `ORDER BY timestamp DESC
LIMIT ?`, rows deserialised back into items. -/
def getRecentFeedback (limit : Nat) (store : List Row) : List Row :=
  (sortBefore newerFirst store).take limit

/-- `themeCounts[theme] = (themeCounts[theme] || 0) + 1` on an insertion-ordered
association list: bump the existing entry or append a fresh one. -/
def bumpTheme (t : String) : List (String × Nat) → List (String × Nat)
  | [] => [(t, 1)]
  | kv :: rest =>
    if kv.1 = t then (kv.1, kv.2 + 1) :: rest else kv :: bumpTheme t rest

/-- The `themeCounts` object of `getDashboardData` (index.ts lines 192–197):
for each recent item, for each theme occurrence, bump its count. -/
def themeCounts (rows : List Row) : List (String × Nat) :=
  rows.foldl (fun acc r => r.themes.foldl (fun acc2 t => bumpTheme t acc2) acc) []

/-- The numeric value of a decimal digit string (junk on other strings; only
consulted where `isArrayIndex` holds). -/
def strNatVal (s : String) : Nat :=
  s.data.foldl (fun n c => n * 10 + (c.toNat - 48)) 0

/-- Whether `s` is the canonical decimal form of a natural number: `"0"`, or
digits without a leading zero. -/
def isCanonicalNat (s : String) : Bool :=
  match s.data with
  | [] => false
  | [c] => c.isDigit
  | c :: rest => c.isDigit && !(c == '0') && rest.all (fun d => d.isDigit)

/-- Whether `s` is an ECMAScript array index: the canonical decimal string of
an integer in `[0, 2^32 - 2]`.  Such property keys are integer-indexed. -/
def isArrayIndex (s : String) : Bool :=
  isCanonicalNat s && decide (strNatVal s < 4294967295)

/-- `Object.entries` enumeration order (ECMAScript OrdinaryOwnPropertyKeys):
given the entries of an object in key-insertion order, the array-index-like
keys come first in ascending numeric order, followed by the remaining string
keys in insertion order. -/
def jsEntriesBy (key : α → String) (l : List α) : List α :=
  sortBefore (fun a b => decide (strNatVal (key a) ≤ strNatVal (key b)))
      (l.filter (fun a => isArrayIndex (key a)))
    ++ l.filter (fun a => !(isArrayIndex (key a)))

/-- `Object.entries(themeCounts).sort((a, b) => b[1] - a[1]).slice(0, 10)`
(index.ts lines 198–201): enumerate the count object's entries, stable sort
descending by count, top 10. -/
def topThemesOf (rows : List Row) : List (String × Nat) :=
  (sortBefore (fun a b => decide (b.2 ≤ a.2))
    (jsEntriesBy Prod.fst (themeCounts rows))).take 10

/-- Per-theme accumulator of the `themeTrends` object (index.ts lines 221–231):
positive mentions, negative mentions, total mentions. -/
structure ThemeAgg where
  theme : String
  positive : Nat
  negative : Nat
  total : Nat
deriving DecidableEq, Repr

/-- One theme occurrence inside an item whose sentiment tests positive/negative:
`total++`, `positive++` when the item's sentiment is `'positive'`, `negative++`
when it is `'negative'`; a first occurrence creates the entry. -/
def bumpAgg (t : String) (isPos isNeg : Bool) : List ThemeAgg → List ThemeAgg
  | [] => [⟨t, if isPos then 1 else 0, if isNeg then 1 else 0, 1⟩]
  | a :: rest =>
    if a.theme = t then
      ⟨a.theme, a.positive + (if isPos then 1 else 0),
        a.negative + (if isNeg then 1 else 0), a.total + 1⟩ :: rest
    else a :: bumpAgg t isPos isNeg rest

/-- The `themeTrends` object (index.ts lines 221–231): for each recent item,
for each theme occurrence, bump that theme's accumulator. -/
def themeAggs (rows : List Row) : List ThemeAgg :=
  rows.foldl
    (fun acc r =>
      r.themes.foldl
        (fun acc2 t =>
          bumpAgg t (r.sentiment.isStr "positive") (r.sentiment.isStr "negative") acc2)
        acc)
    []

/-- One entry of the dashboard's `themeHealth` output. -/
structure HealthEntry where
  theme : String
  total : Nat
  positive : Nat
  negative : Nat
  score : Int
deriving DecidableEq, Repr

/-- Index.ts lines 235–241: project an accumulator to its health entry,
`score = total > 0 ? Math.round(((positive - negative) / total) * 100) : 0`. -/
def toHealth (a : ThemeAgg) : HealthEntry :=
  { theme := a.theme
    total := a.total
    positive := a.positive
    negative := a.negative
    score :=
      if 0 < a.total then
        jsRound (((a.positive : ℚ) - (a.negative : ℚ)) / (a.total : ℚ) * 100)
      else 0 }

/-- Index.ts lines 234–243: enumerate the `themeTrends` object's entries, map
accumulators to health entries, stable sort descending by total mentions,
top 10. -/
def themeHealthOf (rows : List Row) : List HealthEntry :=
  (sortBefore (fun a b => decide (b.total ≤ a.total))
    ((jsEntriesBy ThemeAgg.theme (themeAggs rows)).map toHealth)).take 10

/-- One row of the standalone `/trends` result (index.ts lines 331–339). -/
structure TrendEntry where
  date : Int
  total : Nat
  positive : Nat
  negative : Nat
  avgScore : ℚ
deriving DecidableEq, Repr

/-- The SQL recency filter `timestamp > DATE('now', '-' || days || ' days')`:
a full ISO timestamp text compares greater than the bare cutoff date exactly
when its date portion is on or after the cutoff day. -/
def inDayWindow (nowDay days : Int) (r : Row) : Bool :=
  decide (nowDay - days ≤ r.timestamp.day)

/-- `getTrends` (index.ts lines 318–340): filter to the day window, group by
`DATE(timestamp)`, per group `COUNT(*)`, the positive/negative `SUM(CASE …)`
sub-counts and `AVG(score)`, ordered ascending by date, averages rounded to one
decimal in the JS mapping. -/
def getTrends (nowDay days : Int) (store : List Row) : List TrendEntry :=
  let rows := store.filter (inDayWindow nowDay days)
  let dates := sortBefore (fun a b => decide (a ≤ b))
    (firstSeen (rows.map (fun r => r.timestamp.day)))
  dates.map (fun d =>
    let grp := rows.filter (fun r => decide (r.timestamp.day = d))
    { date := d
      total := grp.length
      positive := (grp.filter (fun r => r.sentiment.isStr "positive")).length
      negative := (grp.filter (fun r => r.sentiment.isStr "negative")).length
      avgScore := jsRound10 (ratMean (grp.map Row.score)) })

/-- One row of the dashboard's `sentimentTrend` (index.ts lines 204–218). -/
structure DashTrendEntry where
  date : Int
  avgScore : ℚ
  total : Nat
deriving DecidableEq, Repr

/-- The dashboard's 30-day satisfaction trend (index.ts lines 204–218): same
filter and grouping as `getTrends`, projecting date, rounded average and
count. -/
def dashTrend (nowDay : Int) (store : List Row) : List DashTrendEntry :=
  let rows := store.filter (inDayWindow nowDay 30)
  let dates := sortBefore (fun a b => decide (a ≤ b))
    (firstSeen (rows.map (fun r => r.timestamp.day)))
  dates.map (fun d =>
    let grp := rows.filter (fun r => decide (r.timestamp.day = d))
    { date := d
      avgScore := jsRound10 (ratMean (grp.map Row.score))
      total := grp.length })

/-- The three dashboard sentiment counters (index.ts lines 179–186): the SQL
groups for sentiments other than the three known labels are dropped by the
`row.sentiment in sentimentCounts` guard. -/
structure SentimentCounts where
  positive : Nat
  neutral : Nat
  negative : Nat
deriving DecidableEq, Repr

/-- The derived dashboard snapshot (index.ts lines 251–260). -/
structure Dashboard where
  totalFeedback : Nat
  sentimentCounts : SentimentCounts
  averageScore : ℚ
  topThemes : List (String × Nat)
  sentimentTrend : List DashTrendEntry
  themeHealth : List HealthEntry
  sourceBreakdown : List (String × Nat)
  recentFeedback : List Row

/-- `SELECT AVG(score) FROM feedback` followed by `|| 0`: the mean of all
stored scores, `0` for an empty table (SQL `NULL` is falsy after `Number`
coercion). -/
def avgScoreRaw (store : List Row) : ℚ :=
  if store.isEmpty then 0 else ratMean (store.map Row.score)

/-- `getDashboardData` (index.ts lines 178–261).  `totalFeedback` is the sum of
the three sentiment counters; theme statistics run over the 100 most recent
items; the recent-feedback sample is the first 10 of that same working set;
source groups are listed in first-appearance order (the claims fix no order for
them). -/
def getDashboardData (nowDay : Int) (store : List Row) : Dashboard :=
  let counts : SentimentCounts :=
    { positive := store.countP (fun r => r.sentiment.isStr "positive")
      neutral := store.countP (fun r => r.sentiment.isStr "neutral")
      negative := store.countP (fun r => r.sentiment.isStr "negative") }
  let feedback := getRecentFeedback 100 store
  { totalFeedback := counts.positive + counts.neutral + counts.negative
    sentimentCounts := counts
    averageScore := jsRound10 (avgScoreRaw store)
    topThemes := topThemesOf feedback
    sentimentTrend := dashTrend nowDay store
    themeHealth := themeHealthOf feedback
    sourceBreakdown :=
      (firstSeen (store.map Row.source)).map
        (fun s => (s, store.countP (fun r => decide (r.source = s))))
    recentFeedback := feedback.take 10 }

/-- One context line of the summary / ask prompts (index.ts lines 266, 293):
the template literal `[sentiment, score:S] (source): content`. -/
def renderLine (r : Row) : String :=
  "[" ++ r.sentiment.asKey ++ ", score:" ++ toString r.score ++ "] (" ++
    r.source ++ "): " ++ r.content

/-- Observable outcome of `generateSummary`: either the deterministic
no-feedback message returned without touching the generation capability, or an
invocation of the capability on the rendered context. -/
inductive SummaryResult where
  | noFeedback (message : String)
  | generated (context : String)
deriving DecidableEq, Repr

/-- `generateSummary` (index.ts lines 284–316): the 100 most recent items,
filtered to `timestamp >= cutoff` where `cutoff` is `now` minus `days` whole
days; an empty filtered set short-circuits into the fixed message, otherwise
the filtered items are rendered line by line and handed to generation. -/
def generateSummary (now : Timestamp) (days : Int) (store : List Row) : SummaryResult :=
  let feedback := getRecentFeedback 100 store
  let cutoff : Timestamp := ⟨now.day - days, now.tod⟩
  let filtered := feedback.filter (fun f => Timestamp.le cutoff f.timestamp)
  if filtered.isEmpty then
    SummaryResult.noFeedback
      ("No feedback received in the last " ++ toString days ++ " days.")
  else
    SummaryResult.generated (String.intercalate "\n" (filtered.map renderLine))

/-! ## Stable sorting: permutation, sortedness, stability -/

theorem insBefore_perm (bf : α → α → Bool) (x : α) :
    ∀ l : List α, (insBefore bf x l).Perm (x :: l)
  | [] => List.Perm.refl _
  | y :: ys => by
    by_cases h : bf x y = true
    · simp [insBefore, h]
    · simp only [insBefore, if_neg h]
      exact ((insBefore_perm bf x ys).cons y).trans (List.Perm.swap x y ys)

theorem sortBefore_perm (bf : α → α → Bool) :
    ∀ l : List α, (sortBefore bf l).Perm l
  | [] => List.Perm.refl _
  | x :: xs => by
    have h1 := insBefore_perm bf x (sortBefore bf xs)
    exact (h1.trans ((sortBefore_perm bf xs).cons x))

theorem mem_sortBefore (bf : α → α → Bool) (l : List α) (a : α) :
    a ∈ sortBefore bf l ↔ a ∈ l :=
  (sortBefore_perm bf l).mem_iff

theorem mem_insBefore (bf : α → α → Bool) (x : α) (l : List α) (a : α) :
    a ∈ insBefore bf x l ↔ a = x ∨ a ∈ l := by
  rw [(insBefore_perm bf x l).mem_iff, List.mem_cons]

theorem insBefore_pairwise (bf : α → α → Bool)
    (htot : ∀ a b, bf a b = true ∨ bf b a = true)
    (htr : ∀ a b c, bf a b = true → bf b c = true → bf a c = true) (x : α) :
    ∀ l : List α, l.Pairwise (fun a b => bf a b = true) →
      (insBefore bf x l).Pairwise (fun a b => bf a b = true)
  | [], _ => by simp [insBefore]
  | y :: ys, hp => by
    rcases List.pairwise_cons.mp hp with ⟨hy, hys⟩
    by_cases h : bf x y = true
    · simp only [insBefore, h, if_pos]
      refine List.pairwise_cons.mpr ⟨?_, hp⟩
      intro z hz
      rcases List.mem_cons.mp hz with rfl | hz
      · exact h
      · exact htr x y z h (hy z hz)
    · simp only [insBefore, if_neg h]
      refine List.pairwise_cons.mpr ⟨?_, insBefore_pairwise bf htot htr x ys hys⟩
      intro z hz
      rcases (mem_insBefore bf x ys z).mp hz with rfl | hz
      · rcases htot z y with hzy | hyz
        · exact absurd hzy h
        · exact hyz
      · exact hy z hz

theorem sortBefore_pairwise (bf : α → α → Bool)
    (htot : ∀ a b, bf a b = true ∨ bf b a = true)
    (htr : ∀ a b c, bf a b = true → bf b c = true → bf a c = true) :
    ∀ l : List α, (sortBefore bf l).Pairwise (fun a b => bf a b = true)
  | [] => by simp [sortBefore]
  | x :: xs =>
    insBefore_pairwise bf htot htr x (sortBefore bf xs)
      (sortBefore_pairwise bf htot htr xs)

theorem insBefore_filter_pos (bf : α → α → Bool) (q : α → Bool) (x : α)
    (hx : q x = true) :
    ∀ l : List α, (∀ z ∈ l, q z = true → bf x z = true) →
      (insBefore bf x l).filter q = x :: l.filter q
  | [], _ => by simp [insBefore, hx]
  | y :: ys, hall => by
    by_cases h : bf x y = true
    · simp [insBefore, h, hx]
    · have hqy : q y = false := by
        cases hqy : q y with
        | false => rfl
        | true => exact absurd (hall y (List.mem_cons_self y ys) hqy) h
      simp only [insBefore, if_neg h]
      rw [List.filter_cons_of_neg (by simp [hqy]), List.filter_cons_of_neg (by simp [hqy])]
      exact insBefore_filter_pos bf q x hx ys
        (fun z hz hqz => hall z (List.mem_cons_of_mem y hz) hqz)

theorem insBefore_filter_neg (bf : α → α → Bool) (q : α → Bool) (x : α)
    (hx : q x = false) :
    ∀ l : List α, (insBefore bf x l).filter q = l.filter q
  | [] => by simp [insBefore, hx]
  | y :: ys => by
    by_cases h : bf x y = true
    · simp [insBefore, h, hx]
    · simp only [insBefore, if_neg h]
      cases hqy : q y with
      | false =>
        rw [List.filter_cons_of_neg (by simp [hqy]), List.filter_cons_of_neg (by simp [hqy])]
        exact insBefore_filter_neg bf q x hx ys
      | true =>
        rw [List.filter_cons_of_pos hqy, List.filter_cons_of_pos hqy]
        rw [insBefore_filter_neg bf q x hx ys]

/-- Stability of the modelled sort: elements that satisfy a predicate whose
holders are mutually tied keep exactly their original relative order. -/
theorem sortBefore_filter (bf : α → α → Bool) (q : α → Bool)
    (hq : ∀ a b, q a = true → q b = true → bf a b = true) :
    ∀ l : List α, (sortBefore bf l).filter q = l.filter q
  | [] => by simp [sortBefore]
  | x :: xs => by
    have ih := sortBefore_filter bf q hq xs
    show (insBefore bf x (sortBefore bf xs)).filter q = (x :: xs).filter q
    cases hx : q x with
    | true =>
      rw [insBefore_filter_pos bf q x hx (sortBefore bf xs)
        (fun z _ hz => hq x z hx hz), ih, List.filter_cons_of_pos hx]
    | false =>
      rw [insBefore_filter_neg bf q x hx (sortBefore bf xs), ih,
        List.filter_cons_of_neg (by simp [hx])]

/-! ## First-seen deduplication -/

theorem firstSeenFrom_congr [DecidableEq α] :
    ∀ (l seen seen' : List α), (∀ a, a ∈ seen ↔ a ∈ seen') →
      firstSeenFrom seen l = firstSeenFrom seen' l
  | [], _, _, _ => rfl
  | x :: xs, seen, seen', h => by
    by_cases hx : x ∈ seen
    · rw [firstSeenFrom, if_pos hx, firstSeenFrom, if_pos ((h x).mp hx)]
      exact firstSeenFrom_congr xs seen seen' h
    · rw [firstSeenFrom, if_neg hx, firstSeenFrom, if_neg (fun hh => hx ((h x).mpr hh))]
      refine congrArg (x :: ·) (firstSeenFrom_congr xs (x :: seen) (x :: seen') ?_)
      intro a
      simp [h a]

theorem mem_firstSeenFrom [DecidableEq α] :
    ∀ (l seen : List α) (a : α), a ∈ firstSeenFrom seen l ↔ a ∈ l ∧ a ∉ seen
  | [], seen, a => by simp [firstSeenFrom]
  | x :: xs, seen, a => by
    by_cases hx : x ∈ seen
    · rw [firstSeenFrom, if_pos hx, mem_firstSeenFrom xs seen a]
      constructor
      · exact fun ⟨h1, h2⟩ => ⟨List.mem_cons_of_mem x h1, h2⟩
      · rintro ⟨h1, h2⟩
        rcases List.mem_cons.mp h1 with rfl | h1
        · exact absurd hx h2
        · exact ⟨h1, h2⟩
    · rw [firstSeenFrom, if_neg hx, List.mem_cons, mem_firstSeenFrom xs (x :: seen) a]
      by_cases hax : a = x
      · subst hax
        simp [hx]
      · simp only [List.mem_cons, List.mem_cons] at *
        constructor
        · rintro (rfl | ⟨h1, h2⟩)
          · exact absurd rfl hax
          · exact ⟨Or.inr h1, fun hh => h2 (Or.inr hh)⟩
        · rintro ⟨rfl | h1, h2⟩
          · exact absurd rfl hax
          · exact Or.inr ⟨h1, fun hh => h2 (by rcases hh with rfl | hh; exacts [absurd rfl hax, hh])⟩

theorem mem_firstSeen [DecidableEq α] (l : List α) (a : α) :
    a ∈ firstSeen l ↔ a ∈ l := by
  rw [firstSeen, mem_firstSeenFrom]
  simp

theorem firstSeenFrom_nodup [DecidableEq α] :
    ∀ (l seen : List α), (firstSeenFrom seen l).Nodup
  | [], _ => by simp [firstSeenFrom]
  | x :: xs, seen => by
    by_cases hx : x ∈ seen
    · rw [firstSeenFrom, if_pos hx]
      exact firstSeenFrom_nodup xs seen
    · rw [firstSeenFrom, if_neg hx]
      refine List.nodup_cons.mpr ⟨?_, firstSeenFrom_nodup xs (x :: seen)⟩
      intro hmem
      exact ((mem_firstSeenFrom xs (x :: seen) x).mp hmem).2 (List.mem_cons_self x seen)

theorem firstSeen_nodup [DecidableEq α] (l : List α) : (firstSeen l).Nodup :=
  firstSeenFrom_nodup l []

/-! ## Theme counting: the JS object folds characterised -/

theorem bumpTheme_keys_mem (t : String) :
    ∀ acc : List (String × Nat), t ∈ acc.map Prod.fst →
      (bumpTheme t acc).map Prod.fst = acc.map Prod.fst
  | [], h => by simp at h
  | kv :: rest, h => by
    by_cases hkv : kv.1 = t
    · simp [bumpTheme, hkv]
    · have : t ∈ rest.map Prod.fst := by
        rcases List.mem_map.mp h with ⟨u, hu, hut⟩
        rcases List.mem_cons.mp hu with rfl | hu
        · exact absurd hut hkv
        · exact List.mem_map.mpr ⟨u, hu, hut⟩
      simp [bumpTheme, hkv, bumpTheme_keys_mem t rest this]

theorem bumpTheme_not_mem (t : String) :
    ∀ acc : List (String × Nat), t ∉ acc.map Prod.fst →
      bumpTheme t acc = acc ++ [(t, 1)]
  | [], _ => rfl
  | kv :: rest, h => by
    have hkv : ¬ kv.1 = t := by
      intro hh
      exact h (List.mem_map.mpr ⟨kv, List.mem_cons_self kv rest, hh⟩)
    have hrest : t ∉ rest.map Prod.fst := by
      intro hh
      rcases List.mem_map.mp hh with ⟨u, hu, hut⟩
      exact h (List.mem_map.mpr ⟨u, List.mem_cons_of_mem kv hu, hut⟩)
    simp [bumpTheme, hkv, bumpTheme_not_mem t rest hrest]

theorem bumpTheme_mem_eq (t : String) :
    ∀ acc : List (String × Nat), (acc.map Prod.fst).Nodup → t ∈ acc.map Prod.fst →
      bumpTheme t acc = acc.map (fun kv => if kv.1 = t then (kv.1, kv.2 + 1) else kv)
  | [], _, h => by simp at h
  | kv :: rest, hnd, h => by
    by_cases hkv : kv.1 = t
    · have hrest : t ∉ rest.map Prod.fst := by
        rw [List.map_cons, List.nodup_cons] at hnd
        rw [← hkv]
        exact hnd.1
      have : rest.map (fun kv => if kv.1 = t then (kv.1, kv.2 + 1) else kv) = rest := by
        refine List.map_congr_left (fun u hu => ?_) |>.trans (List.map_id rest)
        have : ¬ u.1 = t := by
          intro hh
          exact hrest (List.mem_map.mpr ⟨u, hu, hh⟩)
        simp [this]
      simp [bumpTheme, hkv, this]
    · have : t ∈ rest.map Prod.fst := by
        rcases List.mem_map.mp h with ⟨u, hu, hut⟩
        rcases List.mem_cons.mp hu with rfl | hu
        · exact absurd hut hkv
        · exact List.mem_map.mpr ⟨u, hu, hut⟩
      rw [List.map_cons, List.nodup_cons] at hnd
      simp [bumpTheme, hkv, bumpTheme_mem_eq t rest hnd.2 this]

theorem countFold_spec :
    ∀ (occ : List String) (acc : List (String × Nat)), (acc.map Prod.fst).Nodup →
      occ.foldl (fun a t => bumpTheme t a) acc
        = acc.map (fun kv => (kv.1, kv.2 + occ.count kv.1))
          ++ (firstSeenFrom (acc.map Prod.fst) occ).map (fun t => (t, occ.count t))
  | [], acc, _ => by
    simp only [List.foldl_nil, firstSeenFrom, List.map_nil, List.append_nil]
    refine ((List.map_congr_left (fun kv _ => ?_)).trans (List.map_id acc)).symm
    rfl
  | t :: rest, acc, hnd => by
    rw [List.foldl_cons]
    by_cases ht : t ∈ acc.map Prod.fst
    · have hkeys := bumpTheme_keys_mem t acc ht
      have hnd' : ((bumpTheme t acc).map Prod.fst).Nodup := by rw [hkeys]; exact hnd
      rw [countFold_spec rest (bumpTheme t acc) hnd', hkeys]
      rw [firstSeenFrom, if_pos ht]
      congr 1
      · rw [bumpTheme_mem_eq t acc hnd ht, List.map_map]
        refine List.map_congr_left (fun kv _ => ?_)
        by_cases hkv : kv.1 = t
        · simp only [Function.comp_apply, if_pos hkv, List.count_cons, hkv]
          simp
          omega
        · have : ¬ (t == kv.1) = true := by simpa using fun hh => hkv hh.symm
          simp only [Function.comp_apply, if_neg hkv, List.count_cons, this]
          simp
      · refine List.map_congr_left (fun u hu => ?_)
        have hunot : u ∉ acc.map Prod.fst := ((mem_firstSeenFrom rest _ u).mp hu).2
        have hut : ¬ (t == u) = true := by
          simp only [beq_iff_eq]
          intro hh
          exact hunot (hh ▸ ht)
        simp [List.count_cons, hut]
    · have hbump := bumpTheme_not_mem t acc ht
      have hkeys : (bumpTheme t acc).map Prod.fst = acc.map Prod.fst ++ [t] := by
        simp [hbump]
      have hnd' : ((bumpTheme t acc).map Prod.fst).Nodup := by
        rw [hkeys]
        refine List.Nodup.append hnd (by simp) ?_
        intro u hu hu'
        simp only [List.mem_singleton] at hu'
        exact ht (hu' ▸ hu)
      rw [countFold_spec rest (bumpTheme t acc) hnd', hkeys, hbump]
      rw [List.map_append, List.append_assoc]
      rw [firstSeenFrom, if_neg ht]
      congr 1
      · refine List.map_congr_left (fun kv hkv => ?_)
        have : ¬ (t == kv.1) = true := by
          simp only [beq_iff_eq]
          intro hh
          exact ht (hh ▸ List.mem_map.mpr ⟨kv, hkv, rfl⟩)
        simp [List.count_cons, this]
      · rw [firstSeenFrom_congr rest (acc.map Prod.fst ++ [t]) (t :: acc.map Prod.fst)
          (fun a => by simp [or_comm])]
        simp only [List.map_cons, List.map_nil, List.cons_append, List.nil_append]
        congr 1
        · simp [List.count_cons, Nat.add_comm]
        · refine List.map_congr_left (fun u hu => ?_)
          have hunot : u ∉ t :: acc.map Prod.fst := ((mem_firstSeenFrom rest _ u).mp hu).2
          have hut : ¬ (t == u) = true := by
            simp only [beq_iff_eq]
            intro hh
            exact hunot (by simp [hh])
          simp [List.count_cons, hut]

theorem themeCounts_fold :
    ∀ (rows : List Row) (acc : List (String × Nat)),
      rows.foldl (fun acc r => r.themes.foldl (fun a t => bumpTheme t a) acc) acc
        = (rows.flatMap Row.themes).foldl (fun a t => bumpTheme t a) acc
  | [], _ => rfl
  | r :: rest, acc => by
    rw [List.foldl_cons, List.flatMap_cons, List.foldl_append]
    exact themeCounts_fold rest _

/-- The `themeCounts` object, characterised: one entry per distinct theme of
the working set in first-seen order, each carrying the number of occurrences of
that theme across the items' theme lists. -/
theorem themeCounts_spec (rows : List Row) :
    themeCounts rows
      = (firstSeen (rows.flatMap Row.themes)).map
          (fun t => (t, (rows.flatMap Row.themes).count t)) := by
  rw [themeCounts, themeCounts_fold rows []]
  rw [countFold_spec (rows.flatMap Row.themes) [] (by simp)]
  simp [firstSeen]

/-! ## Theme sentiment aggregation characterised -/

/-- The working set flattened into annotated theme occurrences: one element per
occurrence of a theme in an item's list, tagged with whether that item's
sentiment tests `'positive'` / `'negative'`. -/
def occAnn (rows : List Row) : List (String × Bool × Bool) :=
  rows.flatMap (fun r =>
    r.themes.map (fun t => (t, r.sentiment.isStr "positive", r.sentiment.isStr "negative")))

/-- Occurrences of theme `t` inside positive items. -/
def posCount (occ : List (String × Bool × Bool)) (t : String) : Nat :=
  occ.countP (fun p => decide (p.1 = t) && p.2.1)

/-- Occurrences of theme `t` inside negative items. -/
def negCount (occ : List (String × Bool × Bool)) (t : String) : Nat :=
  occ.countP (fun p => decide (p.1 = t) && p.2.2)

/-- All occurrences of theme `t`. -/
def totCount (occ : List (String × Bool × Bool)) (t : String) : Nat :=
  occ.countP (fun p => decide (p.1 = t))

/-- The accumulator value theme `t` ends up with. -/
def aggOf (occ : List (String × Bool × Bool)) (t : String) : ThemeAgg :=
  ⟨t, posCount occ t, negCount occ t, totCount occ t⟩

theorem bumpAgg_keys_mem (t : String) (ip ineg : Bool) :
    ∀ acc : List ThemeAgg, t ∈ acc.map ThemeAgg.theme →
      (bumpAgg t ip ineg acc).map ThemeAgg.theme = acc.map ThemeAgg.theme
  | [], h => by simp at h
  | a :: rest, h => by
    by_cases ha : a.theme = t
    · simp [bumpAgg, ha]
    · have : t ∈ rest.map ThemeAgg.theme := by
        rcases List.mem_map.mp h with ⟨u, hu, hut⟩
        rcases List.mem_cons.mp hu with rfl | hu
        · exact absurd hut ha
        · exact List.mem_map.mpr ⟨u, hu, hut⟩
      simp [bumpAgg, ha, bumpAgg_keys_mem t ip ineg rest this]

theorem bumpAgg_not_mem (t : String) (ip ineg : Bool) :
    ∀ acc : List ThemeAgg, t ∉ acc.map ThemeAgg.theme →
      bumpAgg t ip ineg acc
        = acc ++ [⟨t, if ip then 1 else 0, if ineg then 1 else 0, 1⟩]
  | [], _ => rfl
  | a :: rest, h => by
    have ha : ¬ a.theme = t := by
      intro hh
      exact h (List.mem_map.mpr ⟨a, List.mem_cons_self a rest, hh⟩)
    have hrest : t ∉ rest.map ThemeAgg.theme := by
      intro hh
      rcases List.mem_map.mp hh with ⟨u, hu, hut⟩
      exact h (List.mem_map.mpr ⟨u, List.mem_cons_of_mem a hu, hut⟩)
    simp [bumpAgg, ha, bumpAgg_not_mem t ip ineg rest hrest]

theorem bumpAgg_mem_eq (t : String) (ip ineg : Bool) :
    ∀ acc : List ThemeAgg, (acc.map ThemeAgg.theme).Nodup → t ∈ acc.map ThemeAgg.theme →
      bumpAgg t ip ineg acc
        = acc.map (fun a =>
            if a.theme = t then
              ⟨a.theme, a.positive + (if ip then 1 else 0),
                a.negative + (if ineg then 1 else 0), a.total + 1⟩
            else a)
  | [], _, h => by simp at h
  | a :: rest, hnd, h => by
    by_cases ha : a.theme = t
    · have hrest : t ∉ rest.map ThemeAgg.theme := by
        rw [List.map_cons, List.nodup_cons] at hnd
        rw [← ha]
        exact hnd.1
      have hmap : rest.map (fun a =>
          if a.theme = t then
            (⟨a.theme, a.positive + (if ip then 1 else 0),
              a.negative + (if ineg then 1 else 0), a.total + 1⟩ : ThemeAgg)
          else a) = rest := by
        refine List.map_congr_left (fun u hu => ?_) |>.trans (List.map_id rest)
        have : ¬ u.theme = t := by
          intro hh
          exact hrest (List.mem_map.mpr ⟨u, hu, hh⟩)
        simp [this]
      simp [bumpAgg, ha, hmap]
    · have : t ∈ rest.map ThemeAgg.theme := by
        rcases List.mem_map.mp h with ⟨u, hu, hut⟩
        rcases List.mem_cons.mp hu with rfl | hu
        · exact absurd hut ha
        · exact List.mem_map.mpr ⟨u, hu, hut⟩
      rw [List.map_cons, List.nodup_cons] at hnd
      simp [bumpAgg, ha, bumpAgg_mem_eq t ip ineg rest hnd.2 this]

theorem aggFold_spec :
    ∀ (occ : List (String × Bool × Bool)) (acc : List ThemeAgg),
      (acc.map ThemeAgg.theme).Nodup →
      occ.foldl (fun a p => bumpAgg p.1 p.2.1 p.2.2 a) acc
        = acc.map (fun a => ⟨a.theme, a.positive + posCount occ a.theme,
            a.negative + negCount occ a.theme, a.total + totCount occ a.theme⟩)
          ++ (firstSeenFrom (acc.map ThemeAgg.theme) (occ.map Prod.fst)).map (aggOf occ)
  | [], acc, _ => by
    simp only [List.foldl_nil, List.map_nil, firstSeenFrom, List.append_nil]
    refine (List.map_congr_left (fun a _ => ?_)).trans (List.map_id acc) |>.symm
    simp [posCount, negCount, totCount]
  | p :: rest, acc, hnd => by
    obtain ⟨t, ip, ineg⟩ := p
    rw [List.foldl_cons]
    by_cases ht : t ∈ acc.map ThemeAgg.theme
    · have hkeys := bumpAgg_keys_mem t ip ineg acc ht
      have hnd' : ((bumpAgg t ip ineg acc).map ThemeAgg.theme).Nodup := by
        rw [hkeys]; exact hnd
      rw [aggFold_spec rest (bumpAgg t ip ineg acc) hnd', hkeys]
      rw [List.map_cons, firstSeenFrom, if_pos ht]
      congr 1
      · rw [bumpAgg_mem_eq t ip ineg acc hnd ht, List.map_map]
        refine List.map_congr_left (fun a _ => ?_)
        by_cases ha : a.theme = t
        · simp only [Function.comp_apply, if_pos ha]
          cases ip <;> cases ineg <;>
            simp [posCount, negCount, totCount, List.countP_cons, ha] <;> omega
        · have ha' : ¬ t = a.theme := fun hh => ha hh.symm
          simp only [Function.comp_apply, if_neg ha]
          simp [posCount, negCount, totCount, List.countP_cons, ha']
      · refine List.map_congr_left (fun u hu => ?_)
        have hunot : u ∉ acc.map ThemeAgg.theme :=
          ((mem_firstSeenFrom (rest.map Prod.fst) _ u).mp hu).2
        have hut : ¬ u = t := by
          intro hh
          exact hunot (hh ▸ ht)
        have hut' : ¬ t = u := fun hh => hut hh.symm
        simp [aggOf, posCount, negCount, totCount, List.countP_cons, hut, hut']
    · have hbump := bumpAgg_not_mem t ip ineg acc ht
      have hkeys : (bumpAgg t ip ineg acc).map ThemeAgg.theme
          = acc.map ThemeAgg.theme ++ [t] := by
        simp [hbump]
      have hnd' : ((bumpAgg t ip ineg acc).map ThemeAgg.theme).Nodup := by
        rw [hkeys]
        refine List.Nodup.append hnd (by simp) ?_
        intro u hu hu'
        simp only [List.mem_singleton] at hu'
        exact ht (hu' ▸ hu)
      rw [aggFold_spec rest (bumpAgg t ip ineg acc) hnd', hkeys, hbump]
      conv_rhs => rw [List.map_cons, firstSeenFrom, if_neg ht]
      rw [List.map_append, List.append_assoc]
      congr 1
      · refine List.map_congr_left (fun a ha => ?_)
        have hat : ¬ a.theme = t := by
          intro hh
          exact ht (hh ▸ List.mem_map.mpr ⟨a, ha, rfl⟩)
        have hat' : ¬ t = a.theme := fun hh => hat hh.symm
        simp [posCount, negCount, totCount, List.countP_cons, hat']
      · rw [firstSeenFrom_congr (rest.map Prod.fst)
          (acc.map ThemeAgg.theme ++ [t]) (t :: acc.map ThemeAgg.theme)
          (fun a => by simp [or_comm])]
        simp only [List.map_cons, List.map_nil, List.cons_append, List.nil_append]
        congr 1
        · cases ip <;> cases ineg <;>
            simp [aggOf, posCount, negCount, totCount, List.countP_cons] <;> omega
        · refine List.map_congr_left (fun u hu => ?_)
          have hunot : u ∉ t :: acc.map ThemeAgg.theme :=
            ((mem_firstSeenFrom (rest.map Prod.fst) _ u).mp hu).2
          have hut : ¬ u = t := by
            intro hh
            exact hunot (by simp [hh])
          have hut' : ¬ t = u := fun hh => hut hh.symm
          simp [aggOf, posCount, negCount, totCount, List.countP_cons, hut, hut']

theorem themeAggs_fold :
    ∀ (rows : List Row) (acc : List ThemeAgg),
      rows.foldl (fun acc r =>
          r.themes.foldl (fun acc2 t =>
            bumpAgg t (r.sentiment.isStr "positive") (r.sentiment.isStr "negative") acc2)
          acc) acc
        = (occAnn rows).foldl (fun a p => bumpAgg p.1 p.2.1 p.2.2 a) acc
  | [], _ => rfl
  | r :: rest, acc => by
    rw [List.foldl_cons, occAnn, List.flatMap_cons, List.foldl_append, List.foldl_map]
    exact themeAggs_fold rest _

/-- The `themeTrends` object, characterised: one accumulator per distinct theme
of the working set in first-seen order, holding the occurrence counts of that
theme overall and inside positive/negative items. -/
theorem themeAggs_spec (rows : List Row) :
    themeAggs rows = (firstSeen ((occAnn rows).map Prod.fst)).map (aggOf (occAnn rows)) := by
  rw [themeAggs, themeAggs_fold rows []]
  rw [aggFold_spec (occAnn rows) [] (by simp)]
  simp [firstSeen]

/-! ## Ingestion loop behaviour -/

theorem rowsFrom_length (oracle : Nat → ClassifierResponse) :
    ∀ (k : Nat) (items : List RawInput), (rowsFrom oracle k items).length = items.length
  | _, [] => rfl
  | k, _ :: rest => by
    simp only [rowsFrom, List.length_cons, rowsFrom_length oracle (k + 1) rest]

theorem rowsFrom_get (oracle : Nat → ClassifierResponse) :
    ∀ (k : Nat) (items : List RawInput) (n : Nat) (h : n < items.length)
      (h' : n < (rowsFrom oracle k items).length),
      (rowsFrom oracle k items).get ⟨n, h'⟩
        = rowOf (oracle (k + n)) (k + n) (items.get ⟨n, h⟩)
  | _, [], n, h, _ => absurd h (by simp)
  | k, item :: rest, 0, _, _ => by simp [rowsFrom]
  | k, item :: rest, n + 1, h, h' => by
    simp only [rowsFrom, List.get_cons_succ]
    rw [rowsFrom_get oracle (k + 1) rest n (Nat.lt_of_succ_lt_succ (by simpa using h))]
    have : k + 1 + n = k + (n + 1) := by omega
    rw [this]

theorem ingestLoop_ok (oracle : Nat → ClassifierResponse) :
    ∀ (items : List RawInput) (k : Nat) (store : List Row),
      (∀ i ∈ items, i.bindable = true) →
      ingestLoop oracle k items store
        = (store ++ rowsFrom oracle k items, Except.ok (rowsFrom oracle k items))
  | [], k, store, _ => by simp [ingestLoop, rowsFrom]
  | item :: rest, k, store, hall => by
    have hitem : item.bindable = true := hall item (List.mem_cons_self item rest)
    obtain ⟨src, hsrc⟩ : ∃ s, item.source = some s := by
      rcases h : item.source with _ | s
      · rw [RawInput.bindable, h] at hitem; simp at hitem
      · exact ⟨s, rfl⟩
    obtain ⟨cnt, hcnt⟩ : ∃ c, item.content = some c := by
      rcases h : item.content with _ | c
      · rw [RawInput.bindable, h] at hitem; simp at hitem
      · exact ⟨c, rfl⟩
    obtain ⟨ts, hts⟩ : ∃ u, item.timestamp = some u := by
      rcases h : item.timestamp with _ | u
      · rw [RawInput.bindable, h] at hitem; simp at hitem
      · exact ⟨u, rfl⟩
    have hrest : ∀ i ∈ rest, i.bindable = true :=
      fun i hi => hall i (List.mem_cons_of_mem item hi)
    rw [ingestLoop, hsrc, hcnt, hts]
    simp only
    rw [ingestLoop_ok oracle rest (k + 1) (store ++ [rowOf (oracle k) k item]) hrest]
    simp [rowsFrom, Except.map]

theorem ingestLoop_err (oracle : Nat → ClassifierResponse)
    (bad : RawInput) (hbad : bad.bindable = false) (rest : List RawInput) :
    ∀ (pre : List RawInput) (k : Nat) (store : List Row),
      (∀ i ∈ pre, i.bindable = true) →
      ingestLoop oracle k (pre ++ bad :: rest) store
        = (store ++ rowsFrom oracle k pre,
           Except.error "Type undefined not supported for value binding")
  | [], k, store, _ => by
    rw [List.nil_append, ingestLoop]
    rcases hs : bad.source with _ | s
    · simp [hs, rowsFrom]
    · rcases hc : bad.content with _ | c
      · simp [hs, hc, rowsFrom]
      · rcases ht : bad.timestamp with _ | u
        · simp [hs, hc, ht, rowsFrom]
        · rw [RawInput.bindable, hs, hc, ht] at hbad
          simp at hbad
  | item :: pre, k, store, hall => by
    have hitem : item.bindable = true := hall item (List.mem_cons_self item pre)
    obtain ⟨src, hsrc⟩ : ∃ s, item.source = some s := by
      rcases h : item.source with _ | s
      · rw [RawInput.bindable, h] at hitem; simp at hitem
      · exact ⟨s, rfl⟩
    obtain ⟨cnt, hcnt⟩ : ∃ c, item.content = some c := by
      rcases h : item.content with _ | c
      · rw [RawInput.bindable, h] at hitem; simp at hitem
      · exact ⟨c, rfl⟩
    obtain ⟨ts, hts⟩ : ∃ u, item.timestamp = some u := by
      rcases h : item.timestamp with _ | u
      · rw [RawInput.bindable, h] at hitem; simp at hitem
      · exact ⟨u, rfl⟩
    have hpre : ∀ i ∈ pre, i.bindable = true :=
      fun i hi => hall i (List.mem_cons_of_mem item hi)
    rw [List.cons_append, ingestLoop, hsrc, hcnt, hts]
    simp only
    rw [ingestLoop_err oracle bad hbad rest pre (k + 1)
      (store ++ [rowOf (oracle k) k item]) hpre]
    simp [rowsFrom, Except.map]

/-- The classification result's sentiment is never the JSON `null` (a falsy
parsed value falls back to the string `neutral`). -/
theorem classify_sentiment_ne_null (resp : ClassifierResponse) :
    (classify resp).sentiment ≠ Json.null := by
  cases resp with
  | parsed j =>
    simp only [classify]
    rcases h : j.get "sentiment" with _ | v
    · simp [h]
    · by_cases hv : v.truthy = true
      · simp only [if_pos hv]
        intro hh
        rw [hh] at hv
        simp [Json.truthy] at hv
      · simp [hv]
  | callFailed => simp [classify]
  | noJsonFound => simp [classify]
  | parseFailed => simp [classify]

/-! ## Rounding and averaging bounds -/

theorem jsRound_ge (q : ℚ) (m : Int) (h : (m : ℚ) ≤ q) : m ≤ jsRound q := by
  rw [jsRound]
  exact Int.le_floor.mpr (by linarith)

theorem jsRound_le (q : ℚ) (n : Int) (h : q ≤ (n : ℚ)) : jsRound q ≤ n := by
  rw [jsRound]
  have h1 : ⌊q + 1 / 2⌋ ≤ ⌊(n : ℚ) + 1 / 2⌋ := Int.floor_le_floor (by linarith)
  have h2 : ⌊(n : ℚ) + 1 / 2⌋ = n := by
    rw [add_comm, Int.floor_add_int]
    norm_num
  omega

theorem ratMean_bounds (l : List ℚ) (lo hi : ℚ) (hne : l ≠ [])
    (h : ∀ x ∈ l, lo ≤ x ∧ x ≤ hi) : lo ≤ ratMean l ∧ ratMean l ≤ hi := by
  have hlen : 0 < (l.length : ℚ) := by
    have : 0 < l.length := List.length_pos.mpr hne
    exact_mod_cast this
  have hsumhi : l.sum ≤ (l.length : ℚ) * hi := by
    have := List.sum_le_card_nsmul l hi (fun x hx => (h x hx).2)
    simpa [nsmul_eq_mul] using this
  have hsumlo : (l.length : ℚ) * lo ≤ l.sum := by
    have := List.card_nsmul_le_sum l lo (fun x hx => (h x hx).1)
    simpa [nsmul_eq_mul] using this
  constructor
  · rw [ratMean, le_div_iff₀ hlen]
    linarith
  · rw [ratMean, div_le_iff₀ hlen]
    linarith

theorem length_filter_partition (p q : α → Bool)
    (hdisj : ∀ x, ¬(p x = true ∧ q x = true)) :
    ∀ l : List α,
      (l.filter p).length + (l.filter q).length
        + (l.filter (fun x => !p x && !q x)).length = l.length
  | [] => rfl
  | x :: l => by
    have ih := length_filter_partition p q hdisj l
    by_cases hp : p x = true
    · have hq : q x = false := by
        rcases hqq : q x with _ | _
        · rfl
        · exact absurd ⟨hp, hqq⟩ (hdisj x)
      rw [List.filter_cons_of_pos hp, List.filter_cons_of_neg (by simp [hq]),
        List.filter_cons_of_neg (by simp [hp])]
      simp only [List.length_cons]
      omega
    · have hp' : p x = false := by simpa using hp
      by_cases hq : q x = true
      · rw [List.filter_cons_of_neg (by simp [hp']), List.filter_cons_of_pos hq,
          List.filter_cons_of_neg (by simp [hq])]
        simp only [List.length_cons]
        omega
      · have hq' : q x = false := by simpa using hq
        rw [List.filter_cons_of_neg (by simp [hp']), List.filter_cons_of_neg (by simp [hq']),
          List.filter_cons_of_pos (by simp [hp', hq'])]
        simp only [List.length_cons]
        omega

/-! ## Claim theorems -/

/-- C1: for every ingestion batch of well-formed inputs, `ingestFeedback`
returns exactly one classified item per input, in the same order as the inputs
(the n-th returned item carries the n-th input's source, content and
timestamp), each returned item carries a non-null sentiment (its score is a
rational by construction, the embedding of "a numeric score"), and the final
table is the original table extended by exactly the returned items — one
persisted row per item. -/
theorem C1_one_item_per_input (oracle : Nat → ClassifierResponse)
    (items : List RawInput) (store : List Row)
    (hwf : ∀ i ∈ items, i.bindable = true) :
    ∃ out : List Row,
      (ingestFeedback oracle items store).2 = Except.ok out
      ∧ out.length = items.length
      ∧ (ingestFeedback oracle items store).1 = store ++ out
      ∧ ∀ (n : Nat) (h : n < items.length) (h' : n < out.length),
          (out.get ⟨n, h'⟩).source = (items.get ⟨n, h⟩).source.getD ""
          ∧ (out.get ⟨n, h'⟩).content = (items.get ⟨n, h⟩).content.getD ""
          ∧ (out.get ⟨n, h'⟩).timestamp = (items.get ⟨n, h⟩).timestamp.getD ⟨0, 0⟩
          ∧ (out.get ⟨n, h'⟩).sentiment ≠ Json.null := by
  refine ⟨rowsFrom oracle store.length items, ?_, rowsFrom_length oracle store.length items,
    ?_, ?_⟩
  · rw [ingestFeedback, ingestLoop_ok oracle items store.length store hwf]
  · rw [ingestFeedback, ingestLoop_ok oracle items store.length store hwf]
  · intro n h h'
    rw [rowsFrom_get oracle store.length items n h h']
    refine ⟨rfl, rfl, rfl, classify_sentiment_ne_null (oracle (store.length + n))⟩

theorem C1_one_item_per_input_witness :
    (∀ i ∈ ([⟨some "app_store", some "Love this app!", some ⟨20480, 32400⟩, none⟩,
              ⟨some "email", some "Too slow", some ⟨20481, 0⟩, none⟩] : List RawInput),
        i.bindable = true)
    ∧ ∃ out : List Row,
        (ingestFeedback (fun _ => ClassifierResponse.callFailed)
          [⟨some "app_store", some "Love this app!", some ⟨20480, 32400⟩, none⟩,
           ⟨some "email", some "Too slow", some ⟨20481, 0⟩, none⟩] []).2 = Except.ok out
        ∧ out.length = 2 :=
  ⟨by decide,
   match C1_one_item_per_input (fun _ => ClassifierResponse.callFailed)
      [⟨some "app_store", some "Love this app!", some ⟨20480, 32400⟩, none⟩,
       ⟨some "email", some "Too slow", some ⟨20481, 0⟩, none⟩] [] (by decide) with
   | ⟨out, hok, hlen, _, _⟩ => ⟨out, hok, hlen⟩⟩

/-- C2: every classification failure mode (capability call failed, no
brace-delimited JSON found, parse failed) falls back to sentiment `neutral`,
score `5`, themes `[]`; a parsed object missing `sentiment` defaults to
neutral, a missing or non-numeric `score` defaults to `5`, a non-array
`themes` defaults to `[]`; and classification failures never abort the batch:
a batch of well-formed inputs succeeds with one output per input under every
oracle whatsoever. -/
theorem C2_fallback_policy :
    (classify ClassifierResponse.callFailed = ⟨Json.str "neutral", 5, []⟩
      ∧ classify ClassifierResponse.noJsonFound = ⟨Json.str "neutral", 5, []⟩
      ∧ classify ClassifierResponse.parseFailed = ⟨Json.str "neutral", 5, []⟩)
    ∧ (∀ j : Json, j.get "sentiment" = none →
        (classify (ClassifierResponse.parsed j)).sentiment = Json.str "neutral")
    ∧ (∀ j : Json, (∀ q : ℚ, j.get "score" ≠ some (Json.num q)) →
        (classify (ClassifierResponse.parsed j)).score = 5)
    ∧ (∀ j : Json, (∀ xs : List Json, j.get "themes" ≠ some (Json.arr xs)) →
        (classify (ClassifierResponse.parsed j)).themes = [])
    ∧ (∀ (oracle : Nat → ClassifierResponse) (items : List RawInput) (store : List Row),
        (∀ i ∈ items, i.bindable = true) →
        ∃ out : List Row, (ingestFeedback oracle items store).2 = Except.ok out
          ∧ out.length = items.length) := by
  refine ⟨⟨rfl, rfl, rfl⟩, ?_, ?_, ?_, ?_⟩
  · intro j h
    simp only [classify]
    rw [h]
  · intro j h
    simp only [classify]
  · intro j h
    simp only [classify]
  · intro oracle items store hwf
    exact ⟨rowsFrom oracle store.length items,
      by rw [ingestFeedback, ingestLoop_ok oracle items store.length store hwf],
      rowsFrom_length oracle store.length items⟩

theorem C2_fallback_policy_witness :
    ((Json.obj [("themes", Json.arr [Json.str "ui"])]).get "sentiment" = none
      ∧ (classify (ClassifierResponse.parsed
          (Json.obj [("themes", Json.arr [Json.str "ui"])]))).sentiment
        = Json.str "neutral")
    ∧ ∃ out : List Row,
        (ingestFeedback (fun _ => ClassifierResponse.parseFailed)
          [⟨some "survey", some "meh", some ⟨20490, 0⟩, none⟩] []).2 = Except.ok out
        ∧ out.length = 1 :=
  ⟨⟨rfl, C2_fallback_policy.2.1 (Json.obj [("themes", Json.arr [Json.str "ui"])]) rfl⟩,
   C2_fallback_policy.2.2.2.2 (fun _ => ClassifierResponse.parseFailed)
     [⟨some "survey", some "meh", some ⟨20490, 0⟩, none⟩] [] (by decide)⟩

/-- The classification response used to probe C3: syntactically valid JSON
whose `sentiment` field is the arbitrary non-empty string `"happy"`. -/
def sentimentProbe : ClassifierResponse :=
  ClassifierResponse.parsed (Json.obj
    [("sentiment", Json.str "happy"), ("score", Json.num 7), ("themes", Json.arr [])])

/-- The table resulting from ingesting one well-formed item under that
response. -/
def sentimentProbeStore : List Row :=
  (ingestFeedback (fun _ => sentimentProbe)
    [⟨some "app_store", some "Love this app!", some ⟨20480, 32400⟩, none⟩] []).1

/-- C3 fails on the code: `sentiment = parsed.sentiment || "neutral"`
(index.ts line 134) keeps any truthy parsed value, so a classification
response carrying `"happy"` is persisted verbatim — the stored sentiment is
none of positive/neutral/negative, contradicting both the declared TypeScript
type of the `sentiment` variable (line 109) and the prompt's contract
(lines 118–124). -/
theorem C3_sentiment_escapes_enum :
    sentimentProbeStore.map (fun r => r.sentiment.asKey) = ["happy"]
    ∧ sentimentProbeStore.map (fun r =>
        r.sentiment.isStr "positive" || r.sentiment.isStr "neutral"
          || r.sentiment.isStr "negative") = [false] := by
  constructor
  · rfl
  · rfl

/-- The run used as the C9 counterexample: a well-formed item, then an item
missing its required `source`, then another well-formed item. -/
def malformedBatchRun : List Row × Except String (List Row) :=
  ingestFeedback (fun _ => ClassifierResponse.callFailed)
    [⟨some "app_store", some "first ok", some ⟨100, 0⟩, none⟩,
     ⟨none, some "missing source", some ⟨100, 1⟩, none⟩,
     ⟨some "email", some "second ok", some ⟨100, 2⟩, none⟩]
    []

/-- C9 as stated is false: the malformed second item raises at the parameter
binding and ends the whole loop, so the well-formed third item
(`"second ok"`) is never attempted — only the first item's row is persisted,
and the error is surfaced.  This refutes the conjunct "the remaining
well-formed items of the batch are still attempted". -/
theorem C9_counterexample :
    malformedBatchRun.1.map Row.content = ["first ok"]
    ∧ malformedBatchRun.2
        = Except.error "Type undefined not supported for value binding"
    ∧ "second ok" ∉ malformedBatchRun.1.map Row.content := by
  refine ⟨rfl, rfl, ?_⟩
  decide

/-- C9 amended: a malformed item (missing required field) is surfaced to the
caller as a request-level error, items processed before it remain persisted
(no all-or-nothing rollback), and processing stops at the malformed item — the
remaining items of the batch are not attempted. -/
theorem C9_malformed_input (oracle : Nat → ClassifierResponse)
    (pre : List RawInput) (bad : RawInput) (rest : List RawInput) (store : List Row)
    (hpre : ∀ i ∈ pre, i.bindable = true) (hbad : bad.bindable = false) :
    (ingestFeedback oracle (pre ++ bad :: rest) store).2
        = Except.error "Type undefined not supported for value binding"
    ∧ (ingestFeedback oracle (pre ++ bad :: rest) store).1
        = store ++ rowsFrom oracle store.length pre := by
  rw [ingestFeedback, ingestLoop_err oracle bad hbad rest pre store.length store hpre]
  exact ⟨rfl, rfl⟩

theorem C9_malformed_input_witness :
    (∀ i ∈ ([⟨some "app_store", some "first ok", some ⟨100, 0⟩, none⟩] : List RawInput),
        i.bindable = true)
    ∧ (⟨none, some "missing source", some ⟨100, 1⟩, none⟩ : RawInput).bindable = false
    ∧ (ingestFeedback (fun _ => ClassifierResponse.callFailed)
        ([⟨some "app_store", some "first ok", some ⟨100, 0⟩, none⟩]
          ++ (⟨none, some "missing source", some ⟨100, 1⟩, none⟩ : RawInput)
            :: [⟨some "email", some "second ok", some ⟨100, 2⟩, none⟩]) []).2
        = Except.error "Type undefined not supported for value binding" :=
  ⟨by decide, by decide,
   (C9_malformed_input (fun _ => ClassifierResponse.callFailed)
      [⟨some "app_store", some "first ok", some ⟨100, 0⟩, none⟩]
      ⟨none, some "missing source", some ⟨100, 1⟩, none⟩
      [⟨some "email", some "second ok", some ⟨100, 2⟩, none⟩]
      [] (by decide) (by decide)).1⟩

theorem jsRound10_bounds (q : ℚ) (h0 : 0 ≤ q) (h10 : q ≤ 10) :
    0 ≤ jsRound10 q ∧ jsRound10 q ≤ 10 := by
  have hge : (0 : Int) ≤ jsRound (q * 10) := jsRound_ge (q * 10) 0 (by push_cast; linarith)
  have hle : jsRound (q * 10) ≤ 100 := jsRound_le (q * 10) 100 (by push_cast; linarith)
  constructor
  · rw [jsRound10]
    apply div_nonneg _ (by norm_num)
    exact_mod_cast hge
  · rw [jsRound10, div_le_iff₀ (by norm_num : (0 : ℚ) < 10)]
    have : ((jsRound (q * 10) : Int) : ℚ) ≤ 100 := by exact_mod_cast hle
    linarith

/-- C4: the dashboard's `averageScore` is `0` on an empty store, equals the
arithmetic mean of all stored scores rounded to one decimal place on a
non-empty store, and lies within `[0, 10]` whenever every stored score does
(`getDashboardData` reads the store and computes a fresh snapshot — the rows
themselves appear unchanged on both sides of every equation). -/
theorem C4_average_score (nowDay : Int) (store : List Row) :
    (store = [] → (getDashboardData nowDay store).averageScore = 0)
    ∧ (store ≠ [] → (getDashboardData nowDay store).averageScore
        = jsRound10 (ratMean (store.map Row.score)))
    ∧ ((∀ r ∈ store, 0 ≤ r.score ∧ r.score ≤ 10) →
        0 ≤ (getDashboardData nowDay store).averageScore
        ∧ (getDashboardData nowDay store).averageScore ≤ 10) := by
  have havg : (getDashboardData nowDay store).averageScore
      = jsRound10 (avgScoreRaw store) := rfl
  refine ⟨?_, ?_, ?_⟩
  · rintro rfl
    rw [havg]
    norm_num [avgScoreRaw, jsRound10, jsRound]
  · intro h
    rw [havg, avgScoreRaw, if_neg (by simpa [List.isEmpty_iff] using h)]
  · intro hb
    by_cases h : store = []
    · subst h
      rw [havg]
      norm_num [avgScoreRaw, jsRound10, jsRound]
    · have hne : store.map Row.score ≠ [] := by
        simpa [List.map_eq_nil_iff] using h
      have hbounds : ∀ x ∈ store.map Row.score, 0 ≤ x ∧ x ≤ 10 := by
        intro x hx
        rcases List.mem_map.mp hx with ⟨r, hr, rfl⟩
        exact hb r hr
      have hmean := ratMean_bounds (store.map Row.score) 0 10 hne hbounds
      rw [havg, avgScoreRaw, if_neg (by simpa [List.isEmpty_iff] using h)]
      exact jsRound10_bounds _ hmean.1 hmean.2

theorem C4_average_score_witness :
    (getDashboardData 0 []).averageScore = 0
    ∧ ((⟨0, "s", "c", ⟨0, 0⟩, Json.str "neutral", 7, [], []⟩ : Row) ∈
        ([⟨0, "s", "c", ⟨0, 0⟩, Json.str "neutral", 7, [], []⟩] : List Row) →
        (0 : ℚ) ≤ 7 ∧ (7 : ℚ) ≤ 10)
    ∧ 0 ≤ (getDashboardData 0
        [⟨0, "s", "c", ⟨0, 0⟩, Json.str "neutral", 7, [], []⟩]).averageScore
    ∧ (getDashboardData 0
        [⟨0, "s", "c", ⟨0, 0⟩, Json.str "neutral", 7, [], []⟩]).averageScore ≤ 10 := by
  refine ⟨(C4_average_score 0 []).1 rfl, fun _ => by norm_num, ?_, ?_⟩
  · exact ((C4_average_score 0 [⟨0, "s", "c", ⟨0, 0⟩, Json.str "neutral", 7, [], []⟩]).2.2
      (by intro r hr; rw [List.mem_singleton] at hr; subst hr; norm_num)).1
  · exact ((C4_average_score 0 [⟨0, "s", "c", ⟨0, 0⟩, Json.str "neutral", 7, [], []⟩]).2.2
      (by intro r hr; rw [List.mem_singleton] at hr; subst hr; norm_num)).2

/-- C8: `generateSummary` works on the 100 most recent items filtered to
timestamps at or after `now` minus `days` whole days; when that filtered set
is empty it returns the deterministic no-feedback message (and the generation
capability is not invoked — no `generated` result is produced), and otherwise
it invokes generation on exactly the filtered items rendered line by line in
the `[sentiment, score:S] (source): content` format of `renderLine`. -/
theorem C8_summary_gate (now : Timestamp) (days : Int) (store : List Row) :
    ((getRecentFeedback 100 store).filter
        (fun f => Timestamp.le ⟨now.day - days, now.tod⟩ f.timestamp) = [] →
      generateSummary now days store
        = SummaryResult.noFeedback
            ("No feedback received in the last " ++ toString days ++ " days."))
    ∧ ((getRecentFeedback 100 store).filter
          (fun f => Timestamp.le ⟨now.day - days, now.tod⟩ f.timestamp) ≠ [] →
      generateSummary now days store
        = SummaryResult.generated (String.intercalate "\n"
            (((getRecentFeedback 100 store).filter
                (fun f => Timestamp.le ⟨now.day - days, now.tod⟩ f.timestamp)).map
              renderLine))) := by
  constructor
  · intro h
    simp [generateSummary, h]
  · intro h
    simp [generateSummary, List.isEmpty_iff, h]

theorem C8_summary_gate_witness :
    ((getRecentFeedback 100 ([] : List Row)).filter
        (fun f => Timestamp.le ⟨20500 - 7, 0⟩ f.timestamp) = [])
    ∧ generateSummary ⟨20500, 0⟩ 7 []
        = SummaryResult.noFeedback "No feedback received in the last 7 days." :=
  ⟨rfl, (C8_summary_gate ⟨20500, 0⟩ 7 []).1 rfl⟩

theorem intLeb_total (a b : Int) : decide (a ≤ b) = true ∨ decide (b ≤ a) = true := by
  rcases Int.le_total a b with h | h
  exacts [Or.inl (decide_eq_true h), Or.inr (decide_eq_true h)]

theorem intLeb_trans (a b c : Int) (hab : decide (a ≤ b) = true)
    (hbc : decide (b ≤ c) = true) : decide (a ≤ c) = true :=
  decide_eq_true (le_trans (of_decide_eq_true hab) (of_decide_eq_true hbc))

theorem isStr_not_both (j : Json) :
    ¬(j.isStr "positive" = true ∧ j.isStr "negative" = true) := by
  rintro ⟨h1, h2⟩
  cases j with
  | str s =>
    simp only [Json.isStr, decide_eq_true_eq] at h1 h2
    rw [h1] at h2
    exact absurd h2 (by decide)
  | null => simp [Json.isStr] at h1
  | bool b => simp [Json.isStr] at h1
  | num q => simp [Json.isStr] at h1
  | arr xs => simp [Json.isStr] at h1
  | obj fs => simp [Json.isStr] at h1

/-- C5: for every positive day window, the trend series has one entry exactly
for each calendar day carrying at least one item that passes the recency
filter (no entry for a day with zero items), entries are strictly ascending by
date, and each entry holds that day's item count (positive), the
positive/negative sub-counts, and the day's average score rounded to one
decimal place. -/
theorem C5_trend_series (nowDay days : Int) (store : List Row) (_hdays : 0 < days) :
    ((getTrends nowDay days store).map TrendEntry.date).Pairwise (fun a b => a < b)
    ∧ (∀ d : Int,
        d ∈ (getTrends nowDay days store).map TrendEntry.date
          ↔ ∃ r ∈ store.filter (inDayWindow nowDay days), r.timestamp.day = d)
    ∧ ∀ e ∈ getTrends nowDay days store,
        0 < e.total
        ∧ e.total = ((store.filter (inDayWindow nowDay days)).filter
            (fun r => decide (r.timestamp.day = e.date))).length
        ∧ e.positive = (((store.filter (inDayWindow nowDay days)).filter
            (fun r => decide (r.timestamp.day = e.date))).filter
              (fun r => r.sentiment.isStr "positive")).length
        ∧ e.negative = (((store.filter (inDayWindow nowDay days)).filter
            (fun r => decide (r.timestamp.day = e.date))).filter
              (fun r => r.sentiment.isStr "negative")).length
        ∧ e.avgScore = jsRound10 (ratMean
            (((store.filter (inDayWindow nowDay days)).filter
              (fun r => decide (r.timestamp.day = e.date))).map Row.score)) := by
  have hmapdate : (getTrends nowDay days store).map TrendEntry.date
      = sortBefore (fun a b => decide (a ≤ b))
          (firstSeen ((store.filter (inDayWindow nowDay days)).map
            (fun r => r.timestamp.day))) := by
    rw [getTrends, List.map_map]
    exact (List.map_congr_left fun d _ => rfl).trans (List.map_id _)
  refine ⟨?_, ?_, ?_⟩
  · rw [hmapdate]
    have hpw := sortBefore_pairwise (fun a b : Int => decide (a ≤ b))
      intLeb_total (fun a b c => intLeb_trans a b c)
      (firstSeen ((store.filter (inDayWindow nowDay days)).map (fun r => r.timestamp.day)))
    have hnd : (sortBefore (fun a b : Int => decide (a ≤ b))
        (firstSeen ((store.filter (inDayWindow nowDay days)).map
          (fun r => r.timestamp.day)))).Nodup :=
      ((sortBefore_perm _ _).nodup_iff).mpr (firstSeen_nodup _)
    exact (hpw.and hnd).imp (fun h => lt_of_le_of_ne (of_decide_eq_true h.1) h.2)
  · intro d
    rw [hmapdate, mem_sortBefore, mem_firstSeen, List.mem_map]
  · intro e he
    rw [getTrends] at he
    rcases List.mem_map.mp he with ⟨d, hd, rfl⟩
    refine ⟨?_, rfl, rfl, rfl, rfl⟩
    rw [mem_sortBefore, mem_firstSeen, List.mem_map] at hd
    rcases hd with ⟨r, hr, hrd⟩
    have : r ∈ (store.filter (inDayWindow nowDay days)).filter
        (fun r => decide (r.timestamp.day = d)) :=
      List.mem_filter.mpr ⟨hr, decide_eq_true hrd⟩
    exact List.length_pos.mpr (List.ne_nil_of_mem this)

theorem C5_trend_series_witness :
    0 < (30 : Int)
    ∧ ((getTrends 12 30
        [⟨0, "a", "c1", ⟨10, 0⟩, Json.str "positive", 7, [], []⟩,
         ⟨1, "a", "c2", ⟨10, 5⟩, Json.str "negative", 2, [], []⟩,
         ⟨2, "b", "c3", ⟨11, 0⟩, Json.str "neutral", 5, [], []⟩]).map
          TrendEntry.date).Pairwise (fun a b => a < b) :=
  ⟨by decide,
   (C5_trend_series 12 30
     [⟨0, "a", "c1", ⟨10, 0⟩, Json.str "positive", 7, [], []⟩,
      ⟨1, "a", "c2", ⟨10, 5⟩, Json.str "negative", 2, [], []⟩,
      ⟨2, "b", "c3", ⟨11, 0⟩, Json.str "neutral", 5, [], []⟩] (by decide)).1⟩

/-- C10: in every trend entry, the positive and negative sub-counts sum to at
most the day's total; the rows of that day with a sentiment other than
`'positive'`/`'negative'` (neutral in particular) make up exactly the
difference, while still contributing to the total and to the day's average
score. -/
theorem C10_trend_subcounts (nowDay days : Int) (store : List Row) :
    ∀ e ∈ getTrends nowDay days store,
      e.positive + e.negative ≤ e.total
      ∧ e.positive + e.negative
          + (((store.filter (inDayWindow nowDay days)).filter
              (fun r => decide (r.timestamp.day = e.date))).filter
                (fun r => !(r.sentiment.isStr "positive")
                  && !(r.sentiment.isStr "negative"))).length
          = e.total
      ∧ e.avgScore = jsRound10 (ratMean
          (((store.filter (inDayWindow nowDay days)).filter
            (fun r => decide (r.timestamp.day = e.date))).map Row.score)) := by
  intro e he
  rw [getTrends] at he
  rcases List.mem_map.mp he with ⟨d, hd, rfl⟩
  have hpart := length_filter_partition
    (fun r : Row => r.sentiment.isStr "positive")
    (fun r : Row => r.sentiment.isStr "negative")
    (fun r => isStr_not_both r.sentiment)
    ((store.filter (inDayWindow nowDay days)).filter (fun r => decide (r.timestamp.day = d)))
  refine ⟨?_, hpart, rfl⟩
  show (((store.filter (inDayWindow nowDay days)).filter
      (fun r => decide (r.timestamp.day = d))).filter
        (fun r => r.sentiment.isStr "positive")).length
    + (((store.filter (inDayWindow nowDay days)).filter
      (fun r => decide (r.timestamp.day = d))).filter
        (fun r => r.sentiment.isStr "negative")).length
    ≤ ((store.filter (inDayWindow nowDay days)).filter
      (fun r => decide (r.timestamp.day = d))).length
  omega

theorem C10_trend_subcounts_witness :
    (⟨10, 2, 1, 1, 9/2⟩ : TrendEntry) ∈ getTrends 12 30
        [⟨0, "a", "c1", ⟨10, 0⟩, Json.str "positive", 7, [], []⟩,
         ⟨1, "a", "c2", ⟨10, 5⟩, Json.str "negative", 2, [], []⟩,
         ⟨2, "b", "c3", ⟨11, 0⟩, Json.str "neutral", 5, [], []⟩]
    ∧ (1 + 1 : Nat) ≤ 2 :=
  ⟨by with_unfolding_all decide,
   by
    have h := (C10_trend_subcounts 12 30
      [⟨0, "a", "c1", ⟨10, 0⟩, Json.str "positive", 7, [], []⟩,
       ⟨1, "a", "c2", ⟨10, 5⟩, Json.str "negative", 2, [], []⟩,
       ⟨2, "b", "c3", ⟨11, 0⟩, Json.str "neutral", 5, [], []⟩]
      ⟨10, 2, 1, 1, 9/2⟩ (by with_unfolding_all decide)).1
    exact h⟩

theorem posCount_le_totCount (occ : List (String × Bool × Bool)) (t : String) :
    posCount occ t ≤ totCount occ t :=
  List.countP_mono_left (fun x _ h => by
    simp only [Bool.and_eq_true] at h
    exact h.1)

theorem negCount_le_totCount (occ : List (String × Bool × Bool)) (t : String) :
    negCount occ t ≤ totCount occ t :=
  List.countP_mono_left (fun x _ h => by
    simp only [Bool.and_eq_true] at h
    exact h.1)

theorem toHealth_score_bounds (a : ThemeAgg) (hp : a.positive ≤ a.total)
    (hn : a.negative ≤ a.total) (ht : 0 < a.total) :
    -100 ≤ (toHealth a).score ∧ (toHealth a).score ≤ 100 := by
  have hsc : (toHealth a).score
      = jsRound (((a.positive : ℚ) - (a.negative : ℚ)) / (a.total : ℚ) * 100) := by
    rw [toHealth]
    simp [ht]
  have htQ : (0 : ℚ) < (a.total : ℚ) := by exact_mod_cast ht
  have hpQ : ((a.positive : ℚ)) ≤ (a.total : ℚ) := by exact_mod_cast hp
  have hnQ : ((a.negative : ℚ)) ≤ (a.total : ℚ) := by exact_mod_cast hn
  have h0p : (0 : ℚ) ≤ (a.positive : ℚ) := by positivity
  have h0n : (0 : ℚ) ≤ (a.negative : ℚ) := by positivity
  have hlo : (-1 : ℚ) ≤ ((a.positive : ℚ) - (a.negative : ℚ)) / (a.total : ℚ) := by
    rw [le_div_iff₀ htQ]
    linarith
  have hhi : ((a.positive : ℚ) - (a.negative : ℚ)) / (a.total : ℚ) ≤ 1 := by
    rw [div_le_iff₀ htQ]
    linarith
  constructor
  · rw [hsc]
    refine jsRound_ge _ (-100) ?_
    push_cast
    linarith
  · rw [hsc]
    refine jsRound_le _ 100 ?_
    push_cast
    linarith

theorem toHealth_score_zero (a : ThemeAgg) (h : a.positive = a.negative) :
    (toHealth a).score = 0 := by
  rw [toHealth]
  simp only [h]
  split
  · norm_num [jsRound]
  · rfl

theorem jsEntriesBy_perm (key : α → String) (l : List α) :
    (jsEntriesBy key l).Perm l := by
  rw [jsEntriesBy]
  refine ((sortBefore_perm _ _).append (List.Perm.refl _)).trans ?_
  exact List.filter_append_perm _ l

/-- C6: theme health is computed over the same 100-most-recent working set as
top themes; each returned entry's total/positive/negative are exact occurrence
counts over that working set (one mention per occurrence in an item's theme
list), its score is `round(((positive − negative) / total) × 100)` (with the
defensive `0` for an empty total), which lies in `[-100, 100]` whenever
`total > 0` and equals `0` whenever `positive = negative`; the entries come
sorted descending by total mentions, truncated to the first 10. -/
theorem C6_theme_health (nowDay : Int) (store : List Row) :
    (getDashboardData nowDay store).themeHealth
        = themeHealthOf (getRecentFeedback 100 store)
    ∧ (getDashboardData nowDay store).topThemes
        = topThemesOf (getRecentFeedback 100 store)
    ∧ (getDashboardData nowDay store).themeHealth
        = (sortBefore (fun a b => decide (b.total ≤ a.total))
            ((jsEntriesBy ThemeAgg.theme
              (themeAggs (getRecentFeedback 100 store))).map toHealth)).take 10
    ∧ (getDashboardData nowDay store).themeHealth.length ≤ 10
    ∧ ((getDashboardData nowDay store).themeHealth.map HealthEntry.total).Pairwise
        (fun a b => b ≤ a)
    ∧ ∀ e ∈ (getDashboardData nowDay store).themeHealth,
        e.total = totCount (occAnn (getRecentFeedback 100 store)) e.theme
        ∧ e.positive = posCount (occAnn (getRecentFeedback 100 store)) e.theme
        ∧ e.negative = negCount (occAnn (getRecentFeedback 100 store)) e.theme
        ∧ e.score = (if 0 < e.total then
            jsRound (((e.positive : ℚ) - (e.negative : ℚ)) / (e.total : ℚ) * 100) else 0)
        ∧ (0 < e.total → -100 ≤ e.score ∧ e.score ≤ 100)
        ∧ (e.positive = e.negative → e.score = 0) := by
  have hpw0 := sortBefore_pairwise (fun a b : HealthEntry => decide (b.total ≤ a.total))
    (fun a b => by
      rcases Nat.le_total b.total a.total with h | h
      exacts [Or.inl (decide_eq_true h), Or.inr (decide_eq_true h)])
    (fun a b c hab hbc =>
      decide_eq_true (le_trans (of_decide_eq_true hbc) (of_decide_eq_true hab)))
    ((jsEntriesBy ThemeAgg.theme (themeAggs (getRecentFeedback 100 store))).map toHealth)
  refine ⟨rfl, rfl, rfl, List.length_take_le 10 _, ?_, ?_⟩
  · have hpw := hpw0.sublist (List.take_sublist 10 _)
    exact List.pairwise_map.mpr (hpw.imp (fun h => of_decide_eq_true h))
  · intro e he
    have he2 : e ∈ sortBefore (fun a b => decide (b.total ≤ a.total))
        ((jsEntriesBy ThemeAgg.theme (themeAggs (getRecentFeedback 100 store))).map toHealth) :=
      List.take_subset 10 _ he
    rw [mem_sortBefore] at he2
    rcases List.mem_map.mp he2 with ⟨a, ha, rfl⟩
    rw [(jsEntriesBy_perm ThemeAgg.theme _).mem_iff, themeAggs_spec] at ha
    rcases List.mem_map.mp ha with ⟨t, _, rfl⟩
    refine ⟨rfl, rfl, rfl, rfl, ?_, toHealth_score_zero _⟩
    intro htot
    exact toHealth_score_bounds _ (posCount_le_totCount _ t) (negCount_le_totCount _ t) htot

theorem C6_theme_health_witness :
    (⟨"pricing", 2, 1, 1, 0⟩ : HealthEntry) ∈ (getDashboardData 12
        [⟨0, "a", "c1", ⟨10, 0⟩, Json.str "positive", 7, ["ui", "pricing"], []⟩,
         ⟨1, "a", "c2", ⟨10, 5⟩, Json.str "negative", 2, ["pricing"], []⟩]).themeHealth
    ∧ (0 < (2 : Nat) → -100 ≤ (0 : Int) ∧ (0 : Int) ≤ 100)
    ∧ ((1 : Nat) = 1 → (0 : Int) = 0) :=
  ⟨by with_unfolding_all decide,
   fun _ => by norm_num,
   fun _ =>
    ((C6_theme_health 12
      [⟨0, "a", "c1", ⟨10, 0⟩, Json.str "positive", 7, ["ui", "pricing"], []⟩,
       ⟨1, "a", "c2", ⟨10, 5⟩, Json.str "negative", 2, ["pricing"], []⟩]).2.2.2.2.2
      ⟨"pricing", 2, 1, 1, 0⟩ (by with_unfolding_all decide)).2.2.2.2.2 rfl⟩

/-- The store used as the C7 counterexample: one item whose theme list is
`["b", "2"]`.  The key `"2"` is array-index-like, so `Object.entries` of the
count object enumerates it before `"b"`; with both counts tied at 1 the stable
descending sort keeps that order, and top themes list `"2"` first even though
`"b"` was seen first. -/
def tieBreakStore : List Row :=
  [⟨0, "app_store", "font 2 is tiny", ⟨10, 0⟩, Json.str "neutral", 5, ["b", "2"], []⟩]

/-- C7 as stated is false: for this store the first-seen order of the themes
is `["b", "2"]`, both counts are 1 (a tie), yet the program returns
`("2", 1)` before `("b", 1)` — array-index-like keys are enumerated first by
`Object.entries`, so ties among equal counts are not broken by first-seen
order. -/
theorem C7_counterexample :
    (getDashboardData 0 tieBreakStore).topThemes = [("2", 1), ("b", 1)]
    ∧ firstSeen ((getRecentFeedback 100 tieBreakStore).flatMap Row.themes) = ["b", "2"]
    ∧ [("2", 1), ("b", 1)] ≠ [("b", 1), ("2", 1)] := by
  refine ⟨?_, ?_, ?_⟩
  · with_unfolding_all decide
  · with_unfolding_all decide
  · decide

/-- C7 amended: top themes are the theme-count pairs of the 100-most-recent
working set — one count per distinct theme, counting one occurrence per
appearance in an item's theme list — stable-sorted descending by count and
truncated to the first 10; the base order the sort preserves on ties is the
`Object.entries` enumeration order: array-index-like theme names first in
ascending numeric order, then the remaining theme names in first-seen order
(the count object's keys are in first-seen order, and the enumeration keeps
the non-index ones in place). -/
theorem C7_top_themes (nowDay : Int) (store : List Row) :
    (getDashboardData nowDay store).topThemes
      = (sortBefore (fun a b => decide (b.2 ≤ a.2))
          (jsEntriesBy Prod.fst (themeCounts (getRecentFeedback 100 store)))).take 10
    ∧ (∀ kv ∈ (getDashboardData nowDay store).topThemes,
        kv.2 = ((getRecentFeedback 100 store).flatMap Row.themes).count kv.1)
    ∧ ((getDashboardData nowDay store).topThemes.map Prod.snd).Pairwise
        (fun a b => b ≤ a)
    ∧ (getDashboardData nowDay store).topThemes.length ≤ 10
    ∧ (themeCounts (getRecentFeedback 100 store)).map Prod.fst
        = firstSeen ((getRecentFeedback 100 store).flatMap Row.themes)
    ∧ (∀ n : Nat,
        (sortBefore (fun a b => decide (b.2 ≤ a.2))
            (jsEntriesBy Prod.fst (themeCounts (getRecentFeedback 100 store)))).filter
              (fun kv => decide (kv.2 = n))
          = (jsEntriesBy Prod.fst (themeCounts (getRecentFeedback 100 store))).filter
              (fun kv => decide (kv.2 = n)))
    ∧ ((jsEntriesBy Prod.fst (themeCounts (getRecentFeedback 100 store))).filter
          (fun kv => !(isArrayIndex kv.1))
        = (themeCounts (getRecentFeedback 100 store)).filter
          (fun kv => !(isArrayIndex kv.1)))
    ∧ ((sortBefore (fun a b => decide (strNatVal (Prod.fst a) ≤ strNatVal (Prod.fst b)))
        ((themeCounts (getRecentFeedback 100 store)).filter
          (fun kv => isArrayIndex kv.1))).Pairwise
            (fun a b => strNatVal a.1 ≤ strNatVal b.1)) := by
  have hpw0 := sortBefore_pairwise (fun a b : String × Nat => decide (b.2 ≤ a.2))
    (fun a b => by
      rcases Nat.le_total b.2 a.2 with h | h
      exacts [Or.inl (decide_eq_true h), Or.inr (decide_eq_true h)])
    (fun a b c hab hbc =>
      decide_eq_true (le_trans (of_decide_eq_true hbc) (of_decide_eq_true hab)))
    (jsEntriesBy Prod.fst (themeCounts (getRecentFeedback 100 store)))
  refine ⟨rfl, ?_, ?_, List.length_take_le 10 _, ?_, ?_, ?_, ?_⟩
  · intro kv hkv
    have hkv2 : kv ∈ sortBefore (fun a b => decide (b.2 ≤ a.2))
        (jsEntriesBy Prod.fst (themeCounts (getRecentFeedback 100 store))) :=
      List.take_subset 10 _ hkv
    rw [mem_sortBefore, (jsEntriesBy_perm Prod.fst _).mem_iff, themeCounts_spec] at hkv2
    rcases List.mem_map.mp hkv2 with ⟨t, _, rfl⟩
    rfl
  · have hpw := hpw0.sublist (List.take_sublist 10 _)
    exact List.pairwise_map.mpr (hpw.imp (fun h => of_decide_eq_true h))
  · rw [themeCounts_spec, List.map_map]
    exact (List.map_congr_left fun t _ => rfl).trans (List.map_id _)
  · intro n
    refine sortBefore_filter _ _ (fun a b ha hb => ?_) _
    have ha2 := of_decide_eq_true ha
    have hb2 := of_decide_eq_true hb
    exact decide_eq_true (by omega)
  · rw [jsEntriesBy, List.filter_append]
    have h1 : (sortBefore
        (fun a b => decide (strNatVal (Prod.fst a) ≤ strNatVal (Prod.fst b)))
        ((themeCounts (getRecentFeedback 100 store)).filter
          (fun a => isArrayIndex (Prod.fst a)))).filter
            (fun kv => !(isArrayIndex kv.1)) = [] := by
      rw [List.filter_eq_nil_iff]
      intro kv hkv
      rw [mem_sortBefore, List.mem_filter] at hkv
      simp [hkv.2]
    rw [h1, List.nil_append, List.filter_filter]
    refine List.filter_congr (fun kv _ => ?_)
    cases h : isArrayIndex kv.1 <;> simp [h]
  · refine (sortBefore_pairwise
      (fun a b : String × Nat => decide (strNatVal (Prod.fst a) ≤ strNatVal (Prod.fst b)))
      (fun a b => by
        rcases Nat.le_total (strNatVal a.1) (strNatVal b.1) with h | h
        exacts [Or.inl (decide_eq_true h), Or.inr (decide_eq_true h)])
      (fun a b c hab hbc =>
        decide_eq_true (le_trans (of_decide_eq_true hab) (of_decide_eq_true hbc)))
      _).imp (fun h => of_decide_eq_true h)

theorem C7_top_themes_witness :
    (("pricing", 2) : String × Nat) ∈ (getDashboardData 12
        [⟨0, "a", "c1", ⟨10, 0⟩, Json.str "positive", 7, ["ui", "pricing"], []⟩,
         ⟨1, "a", "c2", ⟨10, 5⟩, Json.str "negative", 2, ["pricing"], []⟩]).topThemes
    ∧ (2 : Nat) = ((getRecentFeedback 100
        [⟨0, "a", "c1", ⟨10, 0⟩, Json.str "positive", 7, ["ui", "pricing"], []⟩,
         ⟨1, "a", "c2", ⟨10, 5⟩, Json.str "negative", 2, ["pricing"], []⟩]).flatMap
          Row.themes).count "pricing" :=
  ⟨by with_unfolding_all decide,
   (C7_top_themes 12
     [⟨0, "a", "c1", ⟨10, 0⟩, Json.str "positive", 7, ["ui", "pricing"], []⟩,
      ⟨1, "a", "c2", ⟨10, 5⟩, Json.str "negative", 2, ["pricing"], []⟩]).2.1
     ("pricing", 2) (by with_unfolding_all decide)⟩
